import Mathlib

/-!
Verification development for the tombkingsrmk roguelike core: a shallow
embedding in Lean 4 of the combat resolver (`combat.py`), the fighter hp
component (`components/fighter.py`), the melee action (`actions.py`), the
turn scheduler (`ticker.py`, `engine.py`), the pickup action, the
rectangular-rooms dungeon generator (`generation.py`) and the floor
installation logic (`game_map.py`).

Python machine integers are modelled as `ℤ` and Python's `round`
(round half to even) as `roundHalfEven`.  The float arithmetic in the combat
formulas is exact rational arithmetic whose constants (0.50, 0.33, 0.03,
0.80, 0.05, 0.60, 0.35) are all integer multiples of 1/100, so the embedding
computes each formula value as the integer `100 · value` and rounds with
`roundHalfEven100`; the lemma `roundHalfEven100_eq` identifies this with the
rational-valued formula, and `ℚ`-valued definitions of the spec's modifier
formulas are kept alongside for the statements.  Randomness is modelled by
passing the stream of `random.randint` results explicitly as a `List ℤ`
consumed in program order.
-/

/-- Python 3 `round` to an integer: round half to even (banker's rounding).
`int(round(x))` in the source is this function on the exact value. -/
def roundHalfEven (q : ℚ) : ℤ :=
  let f : ℤ := ⌊q⌋
  let r : ℚ := q - (f : ℚ)
  if r < 1/2 then f
  else if 1/2 < r then f + 1
  else if f % 2 = 0 then f else f + 1

/-- `roundHalfEven` on a value given as `n/100`, computed in `ℤ`. -/
def roundHalfEven100 (n : ℤ) : ℤ :=
  let f : ℤ := n / 100
  let r : ℤ := n % 100
  if r < 50 then f
  else if 50 < r then f + 1
  else if f % 2 = 0 then f else f + 1

theorem roundHalfEven100_eq (n : ℤ) : roundHalfEven100 n = roundHalfEven ((n : ℚ) / 100) := by
  have hfloor : ⌊((n : ℚ) / 100)⌋ = n / 100 := by
    have := Rat.floor_intCast_div_natCast n 100
    simpa using this
  have key : ((n : ℚ) / 100) - ((n / 100 : ℤ) : ℚ) = ((n % 100 : ℤ) : ℚ) / 100 := by
    rw [Int.emod_def]
    push_cast
    ring
  simp only [roundHalfEven, roundHalfEven100]
  rw [hfloor, key]
  have h1 : (((n % 100 : ℤ) : ℚ) / 100 < 1/2) ↔ (n % 100 < 50) := by
    rw [div_lt_iff₀ (by norm_num : (0:ℚ) < 100)]
    have h50 : (1:ℚ)/2 * 100 = ((50 : ℤ) : ℚ) := by norm_num
    rw [h50]
    exact_mod_cast Iff.rfl
  have h2 : ((1:ℚ)/2 < ((n % 100 : ℤ) : ℚ) / 100) ↔ (50 < n % 100) := by
    rw [lt_div_iff₀ (by norm_num : (0:ℚ) < 100)]
    have h50 : (1:ℚ)/2 * 100 = ((50 : ℤ) : ℚ) := by norm_num
    rw [h50]
    exact_mod_cast Iff.rfl
  simp only [h1, h2]

example : roundHalfEven100 250 = 2 := by decide
example : roundHalfEven100 150 = 2 := by decide
example : roundHalfEven100 (-105) = -1 := by decide
example : roundHalfEven100 (-180) = -2 := by decide
example : roundHalfEven100 50 = 0 := by decide

/-- Skills component (`components/skills.py`): the two skills read by the
combat resolver.  Values model the effective (base + equipment bonus) skill. -/
structure Skills where
  fighting : ℤ
  shielding : ℤ
  deriving DecidableEq, Repr

/-- Fighter component (`components/fighter.py`): hit points and combat stats.
The stat fields model the effective (base + equipment bonus) values that the
corresponding Python properties return. -/
structure Fighter where
  hp : ℤ
  maxHp : ℤ
  defense : ℤ
  power : ℤ
  armor : ℤ
  accuracy : ℤ
  evasion : ℤ
  deriving DecidableEq, Repr

/-- An actor (`entity.py` `Actor`): fighter stats, skills, whether it has an
AI (`alive` models `ai is not None`, i.e. `Actor.is_alive`), whether it blocks
movement, whether its parent is the engine's active map, and its energy speed
value used when the scheduler re-schedules it. -/
structure Actor where
  fighter : Fighter
  skills : Skills
  alive : Bool
  blocks : Bool
  onMap : Bool
  speed : ℕ
  deriving DecidableEq, Repr

/-- `BASE_MISS_CHANCE_MELEE` in `combat.py`. -/
def BASE_MISS_CHANCE_MELEE : ℤ := 8

/-- `CombatResult` enum in `combat.py`. -/
inductive CombatResult where
  | MISS
  | HIT
  | CRITICAL
  | BLOCK
  deriving DecidableEq, Repr

/-- The defender modifier of `Combat.Melee._roll_to_hit` as the exact rational
`0.50*fighting + (0.33 + 0.03*shielding)*defense + evasion`. -/
def defenderModifier (d : Actor) : ℚ :=
  (1/2) * (d.skills.fighting : ℚ)
    + (33/100 + (3/100) * (d.skills.shielding : ℚ)) * (d.fighter.defense : ℚ)
    + (d.fighter.evasion : ℚ)

/-- The attacker modifier of `Combat.Melee._roll_to_hit`:
`fighting + accuracy`. -/
def attackerModifier (a : Actor) : ℚ :=
  (a.skills.fighting : ℚ) + (a.fighter.accuracy : ℚ)

/-- 100 × `defenderModifier`, computed in `ℤ`. -/
def defenderModifier100 (d : Actor) : ℤ :=
  50 * d.skills.fighting + (33 + 3 * d.skills.shielding) * d.fighter.defense
    + 100 * d.fighter.evasion

/-- 100 × `attackerModifier`, computed in `ℤ`. -/
def attackerModifier100 (a : Actor) : ℤ :=
  100 * (a.skills.fighting + a.fighter.accuracy)

/-- `chance_to_miss` in `Combat.Melee._roll_to_hit`:
`int(round(BASE_MISS_CHANCE_MELEE + defender_modifier - attacker_modifier))`. -/
def chanceToMiss (a d : Actor) : ℤ :=
  roundHalfEven100 (100 * BASE_MISS_CHANCE_MELEE + defenderModifier100 d - attackerModifier100 a)

theorem defenderModifier100_eq (d : Actor) :
    ((defenderModifier100 d : ℚ)) = 100 * defenderModifier d := by
  unfold defenderModifier100 defenderModifier
  push_cast
  ring

theorem attackerModifier100_eq (a : Actor) :
    ((attackerModifier100 a : ℚ)) = 100 * attackerModifier a := by
  unfold attackerModifier100 attackerModifier
  push_cast
  ring

/-- The computed miss chance agrees with the documented rational formula. -/
theorem chanceToMiss_eq (a d : Actor) :
    chanceToMiss a d
      = roundHalfEven ((BASE_MISS_CHANCE_MELEE : ℚ) + defenderModifier d - attackerModifier a) := by
  unfold chanceToMiss
  rw [roundHalfEven100_eq]
  congr 1
  push_cast [defenderModifier100_eq, attackerModifier100_eq]
  show ((100 : ℚ) * 8 + 100 * defenderModifier d - 100 * attackerModifier a) / 100
      = 8 + defenderModifier d - attackerModifier a
  ring

/-- `Combat.Melee._roll_to_hit` outcome for a given `random.randint(0, 100)`
draw: the attack connects iff `draw > chance_to_miss`. -/
def rollToHit (a d : Actor) (draw : ℤ) : Bool :=
  chanceToMiss a d < draw

/-- `spread = attacker.fighter.power // 3` in `Combat.Melee._roll_damage`
(Python floor division). -/
def damageSpread (a : Actor) : ℤ := Int.fdiv a.fighter.power 3

/-- `Combat.Melee._roll_damage`, with the two `randint` results passed in:
`spreadDraw` is the `random.randint(-spread, spread)` result and
`contestDraw` the `random.randint(0, 20)` strength-contest result.  The
source computes `power = attacker.power * (0.80 + 0.05*fighting)`,
`raw_damage = power + spreadDraw`, an armor reduction of
`0.60*armor + 0.03*shielding` when `contestDraw + defender.fighting >
2*attacker.power` (strong defender) and `0.35*armor + 0.03*shielding`
otherwise, and returns `int(round(raw_damage - armor_reduction))`; here each
intermediate value is carried as 100 × its rational value. -/
def rollDamage (a d : Actor) (spreadDraw contestDraw : ℤ) : ℤ :=
  let power100 : ℤ := a.fighter.power * (80 + 5 * a.skills.fighting)
  let rawDamage100 : ℤ := power100 + 100 * spreadDraw
  let armorReduction100 : ℤ :=
    if 2 * a.fighter.power < contestDraw + d.skills.fighting then
      60 * d.fighter.armor + 3 * d.skills.shielding
    else
      35 * d.fighter.armor + 3 * d.skills.shielding
  roundHalfEven100 (rawDamage100 - armorReduction100)

/-- `Combat.Melee._roll_critical`: `random.randint(0, 100) > 90`. -/
def rollCritical (critDraw : ℤ) : Bool := 90 < critDraw

/-- Consume one `randint` result from the modelled RNG stream. -/
def draw1 (rng : List ℤ) : ℤ × List ℤ := (rng.headD 0, rng.tail)

/-- `Combat.Melee.attack`: resolve a melee attack.  Returns the combat result
and damage together with the rest of the RNG stream, so the number of random
draws consumed is part of the model.  Draw order follows the source:
hit draw, then (only on a hit) spread draw, strength-contest draw, and
critical draw. -/
def meleeAttack (a d : Actor) (rng : List ℤ) : (CombatResult × ℤ) × List ℤ :=
  let (hitDraw, rng) := draw1 rng
  if ¬ rollToHit a d hitDraw then
    ((CombatResult.MISS, 0), rng)
  else
    let (spreadDraw, rng) := draw1 rng
    let (contestDraw, rng) := draw1 rng
    let damage := rollDamage a d spreadDraw contestDraw
    let (critDraw, rng) := draw1 rng
    if rollCritical critDraw then
      ((CombatResult.CRITICAL, damage * 2), rng)
    else
      ((CombatResult.HIT, damage), rng)

/-- `Fighter.on_death`: clears the AI (`parent.ai = None`) and stops blocking
movement (`parent.blocks_movement = False`).  The cosmetic changes (corpse
glyph, name, render order) and the xp/message side effects are outside the
modelled state. -/
def onDeath (x : Actor) : Actor := { x with alive := false, blocks := false }

/-- The `Fighter.hp` setter: clamps the new value into `[0, max_hp]` and runs
`on_death` when the result is 0 and the actor still has an AI. -/
def hpSet (x : Actor) (value : ℤ) : Actor :=
  let newHp := max 0 (min value x.fighter.maxHp)
  let x' := { x with fighter := { x.fighter with hp := newHp } }
  if newHp = 0 ∧ x'.alive then onDeath x' else x'

/-- `Fighter.remove_hp`: `self.hp -= amount` through the hp setter. -/
def removeHp (x : Actor) (amount : ℤ) : Actor :=
  hpSet x (x.fighter.hp - amount)

/-- `Fighter.add_hp`: restore health and return the amount actually restored.
Writes `self._hp` directly (not through the setter), capping only at
`max_hp` from above, exactly as the source does. -/
def addHp (x : Actor) (amount : ℤ) : Actor × ℤ :=
  if x.fighter.hp = x.fighter.maxHp then (x, 0)
  else
    let newHp := if x.fighter.maxHp < x.fighter.hp + amount then x.fighter.maxHp
                 else x.fighter.hp + amount
    let recovered := newHp - x.fighter.hp
    ({ x with fighter := { x.fighter with hp := newHp } }, recovered)

/-- `MeleeAction.perform` with the target actor present: resolves the attack
via `Combat.Melee.attack` and applies the returned damage to the target with
`target.fighter.remove_hp(damage)` — the source applies the resolver's value
directly, with no clamping.  Message-log writes are presentation side effects
outside the modelled state; the function returns the resolver's result and
the updated target. -/
def meleePerform (attacker target : Actor) (rng : List ℤ) : (CombatResult × ℤ) × Actor :=
  let ((result, damage), _) := meleeAttack attacker target rng
  ((result, damage), removeHp target damage)

theorem hpSet_fighter_hp (x : Actor) (v : ℤ) :
    (hpSet x v).fighter.hp = max 0 (min v x.fighter.maxHp) := by
  unfold hpSet onDeath
  dsimp only
  split <;> rfl

theorem hpSet_fighter_maxHp (x : Actor) (v : ℤ) :
    (hpSet x v).fighter.maxHp = x.fighter.maxHp := by
  unfold hpSet onDeath
  dsimp only
  split <;> rfl

/-- Concrete stat blocks used by the witness theorems below. -/
def plainActor : Actor :=
  { fighter := { hp := 10, maxHp := 10, defense := 0, power := 0, armor := 0,
                 accuracy := 0, evasion := 0 },
    skills := { fighting := 0, shielding := 0 },
    alive := true, blocks := true, onMap := true, speed := 10 }

/-- A powerless but very accurate attacker (power 0, accuracy 100). -/
def weakAccurateAttacker : Actor :=
  { fighter := { hp := 10, maxHp := 10, defense := 0, power := 0, armor := 0,
                 accuracy := 100, evasion := 0 },
    skills := { fighting := 0, shielding := 0 },
    alive := true, blocks := true, onMap := true, speed := 10 }

/-- A wounded defender wearing armor 3 (hp 5 of 10). -/
def armoredWoundedDefender : Actor :=
  { fighter := { hp := 5, maxHp := 10, defense := 0, power := 0, armor := 3,
                 accuracy := 0, evasion := 0 },
    skills := { fighting := 0, shielding := 0 },
    alive := true, blocks := true, onMap := true, speed := 10 }

/-- The spec fixture attacker: power 5, all else zero. -/
def fixtureAttacker : Actor :=
  { fighter := { hp := 10, maxHp := 10, defense := 0, power := 5, armor := 0,
                 accuracy := 100, evasion := 0 },
    skills := { fighting := 0, shielding := 0 },
    alive := true, blocks := true, onMap := true, speed := 10 }

/-- C1: melee resolution computes
`chanceToMiss = round(8 + defenderModifier - attackerModifier)` with
`defenderModifier = 0.50*fighting + (0.33 + 0.03*shielding)*defense + evasion`
and `attackerModifier = fighting + accuracy`; the attack connects iff the
uniform draw in [0,100] is strictly greater than `chanceToMiss`; on a miss the
result is `(MISS, 0)`, no damage or critical draw is consumed, and the
defender's hp is unchanged by the melee action. -/
theorem melee_miss_resolution (a d : Actor) (draw : ℤ) (rng : List ℤ)
    (hmiss : draw ≤ chanceToMiss a d)
    (hlo : 0 ≤ d.fighter.hp) (hhi : d.fighter.hp ≤ d.fighter.maxHp) :
    chanceToMiss a d
        = roundHalfEven ((BASE_MISS_CHANCE_MELEE : ℚ)
            + defenderModifier d - attackerModifier a)
    ∧ (∀ dr : ℤ, rollToHit a d dr = true ↔ chanceToMiss a d < dr)
    ∧ meleeAttack a d (draw :: rng) = ((CombatResult.MISS, 0), rng)
    ∧ ((meleePerform a d (draw :: rng)).2).fighter.hp = d.fighter.hp := by
  have hattack : meleeAttack a d (draw :: rng) = ((CombatResult.MISS, 0), rng) := by
    simp [meleeAttack, draw1, rollToHit, not_lt.mpr hmiss]
  refine ⟨chanceToMiss_eq a d, fun dr => by simp [rollToHit], hattack, ?_⟩
  simp only [meleePerform, hattack, removeHp, hpSet_fighter_hp]
  omega

theorem melee_miss_resolution_witness :
    chanceToMiss plainActor plainActor
        = roundHalfEven ((BASE_MISS_CHANCE_MELEE : ℚ)
            + defenderModifier plainActor - attackerModifier plainActor)
    ∧ (∀ dr : ℤ, rollToHit plainActor plainActor dr = true
          ↔ chanceToMiss plainActor plainActor < dr)
    ∧ meleeAttack plainActor plainActor [5] = ((CombatResult.MISS, 0), [])
    ∧ ((meleePerform plainActor plainActor [5]).2).fighter.hp
        = plainActor.fighter.hp :=
  melee_miss_resolution plainActor plainActor 5 [] (by decide) (by decide) (by decide)

/-- C2 (failing input): `MeleeAction.perform` applies the resolver's damage
with no clamp.  With a powerless attacker (power 0, accuracy 100) hitting an
armored defender (armor 3, hp 5/10) on draws hit=50, spread=0, contest=20,
crit=0, the resolver reports `(HIT, -2)` and `remove_hp(-2)` raises the
defender's hp from 5 to 7: being hit heals the defender, contradicting the
claimed clamp-to-nonnegative and the claim that hp never increases. -/
theorem melee_negative_damage_heals :
    meleePerform weakAccurateAttacker armoredWoundedDefender [50, 0, 20, 0]
      = ((CombatResult.HIT, -2),
         { armoredWoundedDefender with
             fighter := { armoredWoundedDefender.fighter with hp := 7 } })
    ∧ armoredWoundedDefender.fighter.hp
        < ((meleePerform weakAccurateAttacker armoredWoundedDefender
              [50, 0, 20, 0]).2).fighter.hp := by
  constructor <;> decide

/-- C3 (counterexample): the critical doubling is applied to the resolver's
raw rolled damage, not to a clamped-to-nonnegative value.  On the same draws
as the C2 failing input but with critical draw 95, the rolled damage is -2 and
the resolver returns `(CRITICAL, -4)`, whereas doubling after a
clamp-to-nonnegative step would give `2 * max 0 (-2) = 0`. -/
theorem critical_doubles_after_clamp_counterexample :
    (meleeAttack weakAccurateAttacker armoredWoundedDefender [50, 0, 20, 95]).1
      = (CombatResult.CRITICAL, -4)
    ∧ rollDamage weakAccurateAttacker armoredWoundedDefender 0 20 = -2
    ∧ (-4 : ℤ) ≠ max 0 (rollDamage weakAccurateAttacker armoredWoundedDefender 0 20) * 2 := by
  refine ⟨by decide, by decide, by decide⟩

/-- C3 (amended): on a hit, an independent critical draw strictly greater
than 90 upgrades the outcome to `CRITICAL` and exactly doubles the
already-rolled hit damage; the doubling is applied to the resolver's raw
(unclamped) damage — no clamp-to-nonnegative step exists in resolver or
caller — so hit damage 4 yields critical damage 8 and rolled damage 0 yields
critical damage 0 with the outcome still reporting `CRITICAL`, while negative
rolled damage doubles to a negative value. -/
theorem critical_doubles_rolled_damage (a d : Actor) (h s c k : ℤ) (rng : List ℤ)
    (hhit : chanceToMiss a d < h) :
    (90 < k →
        meleeAttack a d (h :: s :: c :: k :: rng)
          = ((CombatResult.CRITICAL, rollDamage a d s c * 2), rng))
    ∧ (k ≤ 90 →
        meleeAttack a d (h :: s :: c :: k :: rng)
          = ((CombatResult.HIT, rollDamage a d s c), rng)) := by
  constructor
  · intro hk
    simp [meleeAttack, draw1, rollToHit, rollCritical, hhit, hk]
  · intro hk
    simp [meleeAttack, draw1, rollToHit, rollCritical, hhit, not_lt.mpr hk]

theorem critical_doubles_rolled_damage_witness :
    meleeAttack fixtureAttacker plainActor [50, 0, 20, 95]
      = ((CombatResult.CRITICAL, 8), []) := by
  have h := (critical_doubles_rolled_damage fixtureAttacker plainActor
      50 0 20 95 [] (by decide)).1 (by decide)
  rw [h]
  decide

/-- C6: hp stays within `[0, max_hp]` after any application of the hp setter
(for any value) or of `Fighter.remove_hp` (for any amount, both clamp through
the setter), and after `Fighter.add_hp` for a heal amount ≥ 0 starting from an
in-range hp.  (`add_hp` writes `_hp` directly and only caps from above, so
the nonnegative-amount hypothesis reflects what a heal application is.) -/
theorem hp_bounds (x : Actor) :
    (∀ v : ℤ, 0 ≤ x.fighter.maxHp →
        0 ≤ (hpSet x v).fighter.hp
          ∧ (hpSet x v).fighter.hp ≤ (hpSet x v).fighter.maxHp)
    ∧ (∀ amt : ℤ, 0 ≤ x.fighter.maxHp →
        0 ≤ (removeHp x amt).fighter.hp
          ∧ (removeHp x amt).fighter.hp ≤ (removeHp x amt).fighter.maxHp)
    ∧ (∀ amt : ℤ, 0 ≤ amt → 0 ≤ x.fighter.hp → x.fighter.hp ≤ x.fighter.maxHp →
        0 ≤ (addHp x amt).1.fighter.hp
          ∧ (addHp x amt).1.fighter.hp ≤ (addHp x amt).1.fighter.maxHp) := by
  refine ⟨?_, ?_, ?_⟩
  · intro v hmax
    rw [hpSet_fighter_hp, hpSet_fighter_maxHp]
    omega
  · intro amt hmax
    unfold removeHp
    rw [hpSet_fighter_hp, hpSet_fighter_maxHp]
    omega
  · intro amt hamt hlo hhi
    unfold addHp
    dsimp only
    split
    · rename Eq _ _ => heq
      exact ⟨by simpa using hlo, by simpa using hhi⟩
    · dsimp only
      split <;> constructor <;> omega

theorem hp_bounds_witness :
    (0 ≤ (hpSet plainActor 20).fighter.hp
        ∧ (hpSet plainActor 20).fighter.hp ≤ (hpSet plainActor 20).fighter.maxHp)
    ∧ (0 ≤ (removeHp plainActor 3).fighter.hp
        ∧ (removeHp plainActor 3).fighter.hp ≤ (removeHp plainActor 3).fighter.maxHp)
    ∧ (0 ≤ (addHp plainActor 7).1.fighter.hp
        ∧ (addHp plainActor 7).1.fighter.hp ≤ (addHp plainActor 7).1.fighter.maxHp) :=
  ⟨(hp_bounds plainActor).1 20 (by decide),
   (hp_bounds plainActor).2.1 3 (by decide),
   (hp_bounds plainActor).2.2 7 (by decide) (by decide) (by decide)⟩

/-- `Ticker` (`ticker.py`): a tick counter and a bucket map from absolute
tick number to the list of scheduled actors (actors are identified by `ℕ`
ids).  A missing dictionary key is the empty list, matching
`dict.setdefault(key, [])` / `dict.pop(key, [])`. -/
structure Ticker where
  ticks : ℕ
  schedule : ℕ → List ℕ

/-- `Ticker.schedule_turn`: append the actor to the bucket at
`self._ticks + interval`. -/
def Ticker.scheduleTurn (tk : Ticker) (interval : ℕ) (actor : ℕ) : Ticker :=
  { tk with
      schedule := fun k =>
        if k = tk.ticks + interval then tk.schedule k ++ [actor] else tk.schedule k }

/-- `Ticker.next_turn`: pop and return the bucket at the current tick. -/
def Ticker.nextTurn (tk : Ticker) : List ℕ × Ticker :=
  (tk.schedule tk.ticks,
   { tk with schedule := fun k => if k = tk.ticks then [] else tk.schedule k })

/-- The advance operation of the scheduler as the claims describe it:
`Ticker.next_turn` followed by the tick-counter increment that
`Engine.handle_ai` performs after processing the popped bucket. -/
def Ticker.advance (tk : Ticker) : List ℕ × Ticker :=
  let (bucket, tk') := tk.nextTurn
  (bucket, { tk' with ticks := tk'.ticks + 1 })

/-- The scheduler state after `n` advance operations. -/
def Ticker.advanceN (tk : Ticker) : ℕ → Ticker
  | 0 => tk
  | n + 1 => (tk.advanceN n).advance.2

/-- The bucket returned by the `(n+1)`-st advance operation. -/
def Ticker.outputAt (tk : Ticker) (n : ℕ) : List ℕ := (tk.advanceN n).advance.1

theorem Ticker.advanceN_ticks (tk : Ticker) (n : ℕ) :
    (tk.advanceN n).ticks = tk.ticks + n := by
  induction n with
  | zero => rfl
  | succ n ih => simp [Ticker.advanceN, Ticker.advance, Ticker.nextTurn, ih]; omega

theorem Ticker.advanceN_schedule (tk : Ticker) (n : ℕ) (q : ℕ) :
    (tk.advanceN n).schedule q
      = if tk.ticks ≤ q ∧ q < tk.ticks + n then [] else tk.schedule q := by
  induction n with
  | zero =>
    simp only [Ticker.advanceN]
    rw [if_neg (by omega : ¬ (tk.ticks ≤ q ∧ q < tk.ticks + 0))]
  | succ n ih =>
    have hstep : ((tk.advanceN n).advance.2).schedule q
        = if q = (tk.advanceN n).ticks then [] else (tk.advanceN n).schedule q := rfl
    show ((tk.advanceN n).advance.2).schedule q = _
    rw [hstep, Ticker.advanceN_ticks, ih]
    by_cases hq : q = tk.ticks + n
    · rw [if_pos hq, if_pos (by omega : tk.ticks ≤ q ∧ q < tk.ticks + (n + 1))]
    · rw [if_neg hq]
      have h3 : (tk.ticks ≤ q ∧ q < tk.ticks + n) ↔ (tk.ticks ≤ q ∧ q < tk.ticks + (n + 1)) := by
        omega
      simp only [h3]

theorem Ticker.outputAt_eq (tk : Ticker) (n : ℕ) :
    tk.outputAt n = tk.schedule (tk.ticks + n) := by
  unfold Ticker.outputAt Ticker.advance Ticker.nextTurn
  dsimp only
  rw [Ticker.advanceN_schedule, Ticker.advanceN_ticks]
  have h : ¬ (tk.ticks ≤ tk.ticks + n ∧ tk.ticks + n < tk.ticks + n) := by omega
  simp [h]

/-- C4: an actor scheduled with delay `d` while the tick counter equals `t`
is returned by the advance operation exactly once, namely by the advance at
tick `t + d` (the `(d+1)`-st advance), and at no other (in particular no
earlier) advance: the multiplicity of the scheduled actor in the bucket
returned by the `(n+1)`-st advance grows by one exactly when `n = d` and is
unchanged otherwise. -/
theorem schedule_turn_returned_exactly_once (tk : Ticker) (d : ℕ) (a : ℕ) (n : ℕ) :
    ((tk.scheduleTurn d a).outputAt n).count a
      = (tk.outputAt n).count a + (if n = d then 1 else 0) := by
  have hticks : (tk.scheduleTurn d a).ticks = tk.ticks := rfl
  rw [Ticker.outputAt_eq, Ticker.outputAt_eq, hticks]
  unfold Ticker.scheduleTurn
  dsimp only
  by_cases hn : n = d
  · subst hn
    simp
  · have hkey : tk.ticks + n ≠ tk.ticks + d := by omega
    simp [hkey, hn]

/-- Engine-level state for the AI-resolution loop (`engine.py`): the ticker
and the actors, indexed by `ℕ` id. -/
structure EngSt where
  ticker : Ticker
  actors : ℕ → Actor

/-- Outcome of invoking an `Action.perform` from the scheduler loop: normal
completion, a raised `exceptions.Impossible` (with its message), or any other
raised exception (tagged by a code).  Each variant carries the state at the
moment the call returns or the exception escapes. -/
inductive ActionOutcome where
  | ok (s : EngSt)
  | impossible (s : EngSt) (msg : String)
  | fatal (s : EngSt) (e : ℕ)

/-- The state carried by an action outcome. -/
def ActionOutcome.state : ActionOutcome → EngSt
  | .ok s => s
  | .impossible s _ => s
  | .fatal s _ => s

/-- Result of running (part of) `Engine.handle_ai`: the final state, whether
the loop reached the player's turn, the list of actors whose `ai.perform` was
invoked, and an escaping non-Impossible exception if one was raised. -/
structure AiRunResult where
  state : EngSt
  playersTurn : Bool
  acted : List ℕ
  err : Option ℕ

/-- `self.ticker.schedule_turn(actor.energy.speed, actor)` in
`Engine.handle_ai` (the jittered `energy.speed` draw is absorbed into the
actor's modelled `speed` field). -/
def reschedule (s : EngSt) (a : ℕ) : EngSt :=
  { s with ticker := s.ticker.scheduleTurn (s.actors a).speed a }

/-- The `for actor in actors:` body of `Engine.handle_ai`, processing one
popped bucket.  Per the source: dead actors (`not actor.is_alive`) are
skipped entirely; the player is rescheduled and sets `players_turn`; live
non-player actors not on the active map are skipped; otherwise `ai.perform`
runs with `except exceptions.Impossible: pass` (any other exception
propagates, aborting the loop), then the loop breaks if the player died, and
otherwise the actor is rescheduled and iteration continues. -/
def processActors (perform : ℕ → EngSt → ActionOutcome) (player : ℕ) :
    List ℕ → EngSt → Bool → AiRunResult
  | [], s, pt => ⟨s, pt, [], none⟩
  | actor :: rest, s, pt =>
    if (s.actors actor).alive then
      if actor = player then
        processActors perform player rest (reschedule s actor) true
      else if (s.actors actor).onMap then
        match perform actor s with
        | .fatal s' e => ⟨s', pt, [actor], some e⟩
        | .ok s' =>
          if (s'.actors player).alive then
            let r := processActors perform player rest (reschedule s' actor) pt
            ⟨r.state, r.playersTurn, actor :: r.acted, r.err⟩
          else ⟨s', true, [actor], none⟩
        | .impossible s' _ =>
          if (s'.actors player).alive then
            let r := processActors perform player rest (reschedule s' actor) pt
            ⟨r.state, r.playersTurn, actor :: r.acted, r.err⟩
          else ⟨s', true, [actor], none⟩
      else processActors perform player rest s pt
    else processActors perform player rest s pt

/-- `Engine.handle_ai`: repeatedly pop the current tick's bucket with
`next_turn`, process it, and increment the tick counter, until the player's
turn comes up (`fuel` bounds the number of while-loop iterations; the source
loop is unbounded).  A propagating non-Impossible exception escapes before
the tick increment of its iteration. -/
def handleAi (perform : ℕ → EngSt → ActionOutcome) (player : ℕ) :
    ℕ → EngSt → AiRunResult
  | 0, s => ⟨s, false, [], none⟩
  | fuel + 1, s =>
    let popped := s.ticker.nextTurn
    let r := processActors perform player popped.1 { s with ticker := popped.2 } false
    match r.err with
    | some e => ⟨r.state, r.playersTurn, r.acted, some e⟩
    | none =>
      let s' := { r.state with
                    ticker := { r.state.ticker with ticks := r.state.ticker.ticks + 1 } }
      if r.playersTurn then ⟨s', true, r.acted, none⟩
      else
        let r2 := handleAi perform player fuel s'
        ⟨r2.state, r2.playersTurn, r.acted ++ r2.acted, r2.err⟩

/-- `EventHandler.handle_action` (`input_handlers.py`) for a player action:
given the action's outcome, an `Impossible` failure is caught, its message
appended to the message log, and `False` returned with no AI-turn resolution;
a normal completion runs `Engine.handle_ai` and returns `True`; any other
exception propagates out of the handler. -/
def handleAction (perform : ℕ → EngSt → ActionOutcome) (player fuel : ℕ)
    (outcome : ActionOutcome) (log : List String) :
    Except ℕ (EngSt × List String × Bool) :=
  match outcome with
  | .impossible s msg => .ok (s, log ++ [msg], false)
  | .ok s => .ok ((handleAi perform player fuel s).state, log, true)
  | .fatal _ e => .error e

theorem Ticker.scheduleTurn_count_ne (tk : Ticker) (i : ℕ) (a d : ℕ) (h : a ≠ d) (k : ℕ) :
    (((tk.scheduleTurn i a).schedule k).count d) = ((tk.schedule k).count d) := by
  unfold Ticker.scheduleTurn
  dsimp only
  by_cases hk : k = tk.ticks + i
  · rw [if_pos hk]
    simp [List.count_append, List.count_singleton', h]
  · rw [if_neg hk]

theorem Ticker.nextTurn_count_le (tk : Ticker) (d k : ℕ) :
    (((tk.nextTurn).2.schedule k).count d) ≤ ((tk.schedule k).count d) := by
  unfold Ticker.nextTurn
  dsimp only
  by_cases hk : k = tk.ticks
  · rw [if_pos hk]
    simp
  · rw [if_neg hk]

theorem reschedule_actors (s₀ : EngSt) (a : ℕ) : (reschedule s₀ a).actors = s₀.actors := rfl

theorem reschedule_ticker (s₀ : EngSt) (a : ℕ) :
    (reschedule s₀ a).ticker = s₀.ticker.scheduleTurn ((s₀.actors a).speed) a := rfl

theorem processActors_dead_invariant
    (perform : ℕ → EngSt → ActionOutcome) (player : ℕ) (d : ℕ)
    (hstable : ∀ a s', (s'.actors d).alive = false →
        ((perform a s').state.actors d).alive = false
        ∧ ((perform a s').state.actors d).blocks = (s'.actors d).blocks
        ∧ (perform a s').state.ticker = s'.ticker)
    (bucket : List ℕ) :
    ∀ (s : EngSt) (pt : Bool), (s.actors d).alive = false →
      ((processActors perform player bucket s pt).state.actors d).alive = false
      ∧ ((processActors perform player bucket s pt).state.actors d).blocks
          = (s.actors d).blocks
      ∧ d ∉ (processActors perform player bucket s pt).acted
      ∧ ∀ k, (((processActors perform player bucket s pt).state.ticker.schedule k).count d)
            = ((s.ticker.schedule k).count d) := by
  induction bucket with
  | nil =>
    intro s pt hd
    exact ⟨hd, rfl, List.not_mem_nil d, fun k => rfl⟩
  | cons actor rest ih =>
    intro s pt hd
    by_cases halive : (s.actors actor).alive = true
    · have hne : actor ≠ d := by
        intro h
        rw [h, hd] at halive
        cases halive
      by_cases hp : actor = player
      · subst hp
        have heq : processActors perform actor (actor :: rest) s pt
            = processActors perform actor rest (reschedule s actor) true := by
          simp only [processActors]
          rw [if_pos halive]
          simp
        rw [heq]
        obtain ⟨h1, h2, h3, h4⟩ :=
          ih (reschedule s actor) true (by rw [reschedule_actors]; exact hd)
        refine ⟨h1, by rw [h2, reschedule_actors], h3, fun k => ?_⟩
        rw [h4 k, reschedule_ticker,
            Ticker.scheduleTurn_count_ne s.ticker ((s.actors actor).speed) actor d hne k]
      · by_cases hm : (s.actors actor).onMap = true
        · have heq0 : processActors perform player (actor :: rest) s pt
              = match perform actor s with
                | .fatal s' e => ⟨s', pt, [actor], some e⟩
                | .ok s' =>
                  if (s'.actors player).alive then
                    let r := processActors perform player rest (reschedule s' actor) pt
                    ⟨r.state, r.playersTurn, actor :: r.acted, r.err⟩
                  else ⟨s', true, [actor], none⟩
                | .impossible s' _ =>
                  if (s'.actors player).alive then
                    let r := processActors perform player rest (reschedule s' actor) pt
                    ⟨r.state, r.playersTurn, actor :: r.acted, r.err⟩
                  else ⟨s', true, [actor], none⟩ := by
            simp only [processActors]
            rw [if_pos halive, if_neg hp, if_pos hm]
          obtain ⟨hsal, hsbl, hstk⟩ := hstable actor s hd
          cases hperf : perform actor s with
          | fatal s' e =>
            rw [hperf] at hsal hsbl hstk
            simp only [ActionOutcome.state] at hsal hsbl hstk
            have heq : processActors perform player (actor :: rest) s pt
                = ⟨s', pt, [actor], some e⟩ := by rw [heq0, hperf]
            rw [heq]
            refine ⟨hsal, hsbl, ?_, fun k => by rw [hstk]⟩
            simp [hne.symm]
          | ok s' =>
            rw [hperf] at hsal hsbl hstk
            simp only [ActionOutcome.state] at hsal hsbl hstk
            by_cases hpl : (s'.actors player).alive = true
            · have heq : processActors perform player (actor :: rest) s pt
                  = ⟨(processActors perform player rest (reschedule s' actor) pt).state,
                     (processActors perform player rest (reschedule s' actor) pt).playersTurn,
                     actor :: (processActors perform player rest (reschedule s' actor) pt).acted,
                     (processActors perform player rest (reschedule s' actor) pt).err⟩ := by
                rw [heq0, hperf]
                simp only [hpl, if_true]
              rw [heq]
              obtain ⟨h1, h2, h3, h4⟩ :=
                ih (reschedule s' actor) pt (by rw [reschedule_actors]; exact hsal)
              refine ⟨h1, ?_, ?_, fun k => ?_⟩
              · rw [h2, reschedule_actors, hsbl]
              · intro hmem
                rcases List.mem_cons.mp hmem with h | h
                · exact hne h.symm
                · exact h3 h
              · rw [h4 k, reschedule_ticker,
                    Ticker.scheduleTurn_count_ne s'.ticker ((s'.actors actor).speed) actor d hne k,
                    hstk]
            · have heq : processActors perform player (actor :: rest) s pt
                  = ⟨s', true, [actor], none⟩ := by
                rw [heq0, hperf]
                simp only [if_neg hpl]
              rw [heq]
              refine ⟨hsal, hsbl, ?_, fun k => by rw [hstk]⟩
              simp [hne.symm]
          | impossible s' m =>
            rw [hperf] at hsal hsbl hstk
            simp only [ActionOutcome.state] at hsal hsbl hstk
            by_cases hpl : (s'.actors player).alive = true
            · have heq : processActors perform player (actor :: rest) s pt
                  = ⟨(processActors perform player rest (reschedule s' actor) pt).state,
                     (processActors perform player rest (reschedule s' actor) pt).playersTurn,
                     actor :: (processActors perform player rest (reschedule s' actor) pt).acted,
                     (processActors perform player rest (reschedule s' actor) pt).err⟩ := by
                rw [heq0, hperf]
                simp only [hpl, if_true]
              rw [heq]
              obtain ⟨h1, h2, h3, h4⟩ :=
                ih (reschedule s' actor) pt (by rw [reschedule_actors]; exact hsal)
              refine ⟨h1, ?_, ?_, fun k => ?_⟩
              · rw [h2, reschedule_actors, hsbl]
              · intro hmem
                rcases List.mem_cons.mp hmem with h | h
                · exact hne h.symm
                · exact h3 h
              · rw [h4 k, reschedule_ticker,
                    Ticker.scheduleTurn_count_ne s'.ticker ((s'.actors actor).speed) actor d hne k,
                    hstk]
            · have heq : processActors perform player (actor :: rest) s pt
                  = ⟨s', true, [actor], none⟩ := by
                rw [heq0, hperf]
                simp only [if_neg hpl]
              rw [heq]
              refine ⟨hsal, hsbl, ?_, fun k => by rw [hstk]⟩
              simp [hne.symm]
        · have heq : processActors perform player (actor :: rest) s pt
              = processActors perform player rest s pt := by
            simp only [processActors]
            rw [if_pos halive, if_neg hp, if_neg hm]
          rw [heq]
          exact ih s pt hd
    · have heq : processActors perform player (actor :: rest) s pt
          = processActors perform player rest s pt := by
        simp only [processActors]
        rw [if_neg halive]
      rw [heq]
      exact ih s pt hd

theorem handleAi_dead_invariant
    (perform : ℕ → EngSt → ActionOutcome) (player : ℕ) (d : ℕ)
    (hstable : ∀ a s', (s'.actors d).alive = false →
        ((perform a s').state.actors d).alive = false
        ∧ ((perform a s').state.actors d).blocks = (s'.actors d).blocks
        ∧ (perform a s').state.ticker = s'.ticker)
    (fuel : ℕ) :
    ∀ (s : EngSt), (s.actors d).alive = false →
      ((handleAi perform player fuel s).state.actors d).alive = false
      ∧ ((handleAi perform player fuel s).state.actors d).blocks = (s.actors d).blocks
      ∧ d ∉ (handleAi perform player fuel s).acted
      ∧ ∀ k, (((handleAi perform player fuel s).state.ticker.schedule k).count d)
            ≤ ((s.ticker.schedule k).count d) := by
  induction fuel with
  | zero =>
    intro s hd
    exact ⟨hd, rfl, List.not_mem_nil d, fun k => le_refl _⟩
  | succ fuel ih =>
    intro s hd
    have hpop : ({ s with ticker := (s.ticker.nextTurn).2 } : EngSt).actors d = s.actors d := rfl
    obtain ⟨h1, h2, h3, h4⟩ :=
      processActors_dead_invariant perform player d hstable (s.ticker.nextTurn).1
        { s with ticker := (s.ticker.nextTurn).2 } false (by rw [hpop]; exact hd)
    set r := processActors perform player (s.ticker.nextTurn).1
        { s with ticker := (s.ticker.nextTurn).2 } false with hr
    have hcount : ∀ k, ((r.state.ticker.schedule k).count d) ≤ ((s.ticker.schedule k).count d) := by
      intro k
      calc ((r.state.ticker.schedule k).count d)
          = (((s.ticker.nextTurn).2.schedule k).count d) := h4 k
        _ ≤ ((s.ticker.schedule k).count d) := Ticker.nextTurn_count_le s.ticker d k
    have hblocks : (r.state.actors d).blocks = (s.actors d).blocks := by rw [h2, hpop]
    cases herr : r.err with
    | some e =>
      have heq : handleAi perform player (fuel + 1) s = ⟨r.state, r.playersTurn, r.acted, some e⟩ := by
        simp only [handleAi, ← hr, herr]
      rw [heq]
      exact ⟨h1, hblocks, h3, hcount⟩
    | none =>
      by_cases hpt : r.playersTurn = true
      · have heq : handleAi perform player (fuel + 1) s
            = ⟨{ r.state with
                  ticker := { r.state.ticker with ticks := r.state.ticker.ticks + 1 } },
               true, r.acted, none⟩ := by
          simp only [handleAi, ← hr, herr, hpt]
          simp
        rw [heq]
        exact ⟨h1, hblocks, h3, hcount⟩
      · have hpt' : r.playersTurn = false := by
          cases hx : r.playersTurn
          · rfl
          · exact absurd hx hpt
        have heq : handleAi perform player (fuel + 1) s
            = ⟨(handleAi perform player fuel
                  { r.state with
                      ticker := { r.state.ticker with ticks := r.state.ticker.ticks + 1 } }).state,
               (handleAi perform player fuel
                  { r.state with
                      ticker := { r.state.ticker with ticks := r.state.ticker.ticks + 1 } }).playersTurn,
               r.acted ++ (handleAi perform player fuel
                  { r.state with
                      ticker := { r.state.ticker with ticks := r.state.ticker.ticks + 1 } }).acted,
               (handleAi perform player fuel
                  { r.state with
                      ticker := { r.state.ticker with ticks := r.state.ticker.ticks + 1 } }).err⟩ := by
          simp only [handleAi, ← hr, herr, hpt']
          simp
        set s' : EngSt :=
          { r.state with ticker := { r.state.ticker with ticks := r.state.ticker.ticks + 1 } }
          with hs'
        have hs'actors : s'.actors d = r.state.actors d := rfl
        obtain ⟨g1, g2, g3, g4⟩ := ih s' (by rw [hs'actors]; exact h1)
        rw [heq]
        refine ⟨g1, by rw [g2, hs'actors, hblocks], ?_, fun k => ?_⟩
        · intro hmem
          rcases List.mem_append.mp hmem with h | h
          · exact h3 h
          · exact g3 h
        · calc (((handleAi perform player fuel s').state.ticker.schedule k).count d)
              ≤ ((s'.ticker.schedule k).count d) := g4 k
            _ = ((r.state.ticker.schedule k).count d) := rfl
            _ ≤ ((s.ticker.schedule k).count d) := hcount k

/-- An AI action that completes normally without touching any state. -/
def idlePerform : ℕ → EngSt → ActionOutcome := fun _ s => .ok s

/-- An AI action that always raises `exceptions.Impossible`. -/
def impossiblePerform : ℕ → EngSt → ActionOutcome :=
  fun _ s => .impossible s "There is nothing to attack."

/-- An AI action that always raises a non-Impossible exception (code 5). -/
def fatalPerform : ℕ → EngSt → ActionOutcome := fun _ s => .fatal s 5

/-- A state whose every actor was killed by `remove_hp` driving hp from 10 to
0 (so `on_death` ran: AI cleared, no longer blocking), holding a stale
scheduler entry for actor 7 at tick 3 that was placed (delay 3 at tick 0)
before the death. -/
def stalePostDeath : EngSt :=
  { ticker := Ticker.scheduleTurn ⟨0, fun _ => []⟩ 3 7,
    actors := fun _ => removeHp plainActor 10 }

/-- A state of idle live actors with an empty schedule. -/
def twoActorEng : EngSt :=
  { ticker := ⟨0, fun _ => []⟩, actors := fun _ => plainActor }

/-- C5 (counterexample): a dead actor can still be returned by the advance
operation.  In `stalePostDeath`, actor 7 is dead (hp was driven to 0, its AI
cleared and `blocks_movement` false), yet the bucket entry scheduled before
its death is returned by the advance at tick 3: `Ticker.next_turn` does not
filter dead actors, so "never returned by subsequent advance calls" fails as
stated; only the `handle_ai` loop's `is_alive` check skips them. -/
theorem dead_actor_still_returned :
    ((stalePostDeath.actors 7).alive = false)
    ∧ ((stalePostDeath.actors 7).blocks = false)
    ∧ stalePostDeath.ticker.outputAt 3 = [7] := by
  refine ⟨by decide, by decide, ?_⟩
  rfl

/-- C5 (amended): once an actor's hp has been driven to 0 — so `on_death` ran,
clearing its AI and its movement blocking — the AI-resolution loop never lets
it act, never re-schedules it (its multiplicity in every schedule bucket
never grows; stale pre-death entries are only consumed), and it stays dead
and non-blocking, for any number of loop iterations; `next_turn` itself may
still return its stale pre-death entries once each.  The hypothesis on
`perform` states what every action in the source satisfies: no action revives
a dead actor or changes its blocking flag, and no `ai.perform` touches the
ticker. -/
theorem dead_actor_never_acts
    (perform : ℕ → EngSt → ActionOutcome) (player d fuel : ℕ) (s : EngSt)
    (hstable : ∀ a s', (s'.actors d).alive = false →
        ((perform a s').state.actors d).alive = false
        ∧ ((perform a s').state.actors d).blocks = (s'.actors d).blocks
        ∧ (perform a s').state.ticker = s'.ticker)
    (hd : (s.actors d).alive = false)
    (hb : (s.actors d).blocks = false) :
    (∀ x : Actor, (onDeath x).alive = false ∧ (onDeath x).blocks = false)
    ∧ ((handleAi perform player fuel s).state.actors d).alive = false
    ∧ ((handleAi perform player fuel s).state.actors d).blocks = false
    ∧ d ∉ (handleAi perform player fuel s).acted
    ∧ ∀ k, (((handleAi perform player fuel s).state.ticker.schedule k).count d)
          ≤ ((s.ticker.schedule k).count d) := by
  obtain ⟨h1, h2, h3, h4⟩ := handleAi_dead_invariant perform player d hstable fuel s hd
  exact ⟨fun x => ⟨rfl, rfl⟩, h1, by rw [h2, hb], h3, h4⟩

theorem dead_actor_never_acts_witness :
    (∀ x : Actor, (onDeath x).alive = false ∧ (onDeath x).blocks = false)
    ∧ ((handleAi idlePerform 0 5 stalePostDeath).state.actors 7).alive = false
    ∧ ((handleAi idlePerform 0 5 stalePostDeath).state.actors 7).blocks = false
    ∧ 7 ∉ (handleAi idlePerform 0 5 stalePostDeath).acted
    ∧ ∀ k, (((handleAi idlePerform 0 5 stalePostDeath).state.ticker.schedule k).count 7)
          ≤ ((stalePostDeath.ticker.schedule k).count 7) :=
  dead_actor_never_acts idlePerform 0 7 5 stalePostDeath
    (fun a s' h => ⟨h, rfl, rfl⟩) (by decide) (by decide)

/-- C8: the Impossible condition is caught at the action-invocation boundary
and consumes no turn.  For an AI-issued action, the loop body swallows
exactly `exceptions.Impossible` — the actor merely loses that turn and is
re-scheduled, with no error recorded from it, the loop continuing — while
every other exception aborts the loop and propagates.  For a player action
failing with Impossible, `handle_action` reports the message to the log and
returns `False` with the engine state untouched — in particular `handle_ai`
is not run — while a non-Impossible failure propagates out of the handler. -/
theorem impossible_is_caught_at_boundary
    (perform : ℕ → EngSt → ActionOutcome) (player actor fuel : ℕ) (rest : List ℕ)
    (s s' : EngSt) (pt : Bool) (m : String) (e : ℕ) (log : List String) :
    ((s.actors actor).alive = true → actor ≠ player → (s.actors actor).onMap = true →
        perform actor s = .impossible s' m →
        processActors perform player (actor :: rest) s pt
          = if (s'.actors player).alive then
              ⟨(processActors perform player rest (reschedule s' actor) pt).state,
               (processActors perform player rest (reschedule s' actor) pt).playersTurn,
               actor :: (processActors perform player rest (reschedule s' actor) pt).acted,
               (processActors perform player rest (reschedule s' actor) pt).err⟩
            else ⟨s', true, [actor], none⟩)
    ∧ ((s.actors actor).alive = true → actor ≠ player → (s.actors actor).onMap = true →
        perform actor s = .fatal s' e →
        processActors perform player (actor :: rest) s pt = ⟨s', pt, [actor], some e⟩)
    ∧ handleAction perform player fuel (.impossible s m) log
        = Except.ok (s, log ++ [m], false)
    ∧ handleAction perform player fuel (.fatal s e) log = Except.error e := by
  refine ⟨?_, ?_, rfl, rfl⟩
  · intro h1 h2 h3 h4
    simp only [processActors]
    rw [if_pos h1, if_neg h2, if_pos h3, h4]
  · intro h1 h2 h3 h4
    simp only [processActors]
    rw [if_pos h1, if_neg h2, if_pos h3, h4]

theorem impossible_is_caught_at_boundary_witness :
    processActors impossiblePerform 0 [1] twoActorEng false
      = ⟨(processActors impossiblePerform 0 [] (reschedule twoActorEng 1) false).state,
         (processActors impossiblePerform 0 [] (reschedule twoActorEng 1) false).playersTurn,
         1 :: (processActors impossiblePerform 0 [] (reschedule twoActorEng 1) false).acted,
         (processActors impossiblePerform 0 [] (reschedule twoActorEng 1) false).err⟩
    ∧ processActors fatalPerform 0 [1] twoActorEng false
        = ⟨twoActorEng, false, [1], some 5⟩
    ∧ handleAction impossiblePerform 0 3
          (.impossible twoActorEng "There is nothing to attack.") []
        = Except.ok (twoActorEng, ["There is nothing to attack."], false)
    ∧ handleAction impossiblePerform 0 3 (.fatal twoActorEng 5) [] = Except.error 5 := by
  refine ⟨?_, ?_, ?_, ?_⟩
  · have h := (impossible_is_caught_at_boundary impossiblePerform 0 1 3 [] twoActorEng
        twoActorEng false "There is nothing to attack." 5 []).1
        (by decide) (by decide) (by decide) rfl
    rw [h, if_pos (by decide : (twoActorEng.actors 0).alive = true)]
  · exact (impossible_is_caught_at_boundary fatalPerform 0 1 3 [] twoActorEng
        twoActorEng false "There is nothing to attack." 5 []).2.1
        (by decide) (by decide) (by decide) rfl
  · exact (impossible_is_caught_at_boundary impossiblePerform 0 1 3 [] twoActorEng
        twoActorEng false "There is nothing to attack." 5 []).2.2.1
  · exact (impossible_is_caught_at_boundary impossiblePerform 0 1 3 [] twoActorEng
        twoActorEng false "There is nothing to attack." 5 []).2.2.2

/-- An item on the map or in an inventory (`entity.py` `Item`): position and
name (the fields `PickupAction.perform` reads). -/
structure PItem where
  pos : ℤ × ℤ
  name : String
  deriving DecidableEq, Repr

/-- The state read and written by `PickupAction.perform`: the map's items,
the acting actor's inventory and its capacity, the actor's position, and the
message log. -/
structure PickupSt where
  mapItems : List PItem
  invItems : List PItem
  capacity : ℕ
  actorPos : ℤ × ℤ
  log : List String
  deriving DecidableEq, Repr

/-- `PickupAction.perform`: scan the map's items for one at the actor's
position; at the first match, raise Impossible "Your inventory is full." if
`len(inventory.items) >= inventory.capacity`, otherwise move the item from
the map's entity set into the inventory and log the pickup; if no item is at
the actor's position, raise Impossible "There is nothing here to pick up.".
A raised Impossible leaves the state untouched, as both raises precede any
mutation in the source. -/
def pickupPerform (s : PickupSt) : Except String PickupSt :=
  match s.mapItems.find? (fun it => it.pos = s.actorPos) with
  | some it =>
    if s.capacity ≤ s.invItems.length then
      Except.error "Your inventory is full."
    else
      Except.ok { s with
                    mapItems := s.mapItems.erase it,
                    invItems := s.invItems ++ [it],
                    log := s.log ++ ["You pick up the " ++ it.name ++ "."] }
  | none => Except.error "There is nothing here to pick up."

/-- C9: PickUp with an item at the actor's tile and an inventory already
holding `capacity` items fails as Impossible with exactly the message
"Your inventory is full.", and the state is unchanged on the error: the
raise happens before any mutation, so the item stays among the map's items
and the inventory is untouched (the error return carries no new state; the
lemma also records that no success state is produced). -/
theorem pickup_full_inventory (s : PickupSt) (it : PItem)
    (hmem : it ∈ s.mapItems) (hpos : it.pos = s.actorPos)
    (hfull : s.invItems.length = s.capacity) :
    pickupPerform s = Except.error "Your inventory is full."
    ∧ ∀ s', pickupPerform s ≠ Except.ok s' := by
  have hfind : ∃ u, s.mapItems.find? (fun u => u.pos = s.actorPos) = some u := by
    have : (s.mapItems.find? (fun u => decide (u.pos = s.actorPos))).isSome := by
      apply List.find?_isSome.mpr
      exact ⟨it, hmem, by simp [hpos]⟩
    exact Option.isSome_iff_exists.mp this
  obtain ⟨u, hu⟩ := hfind
  have heq : pickupPerform s = Except.error "Your inventory is full." := by
    unfold pickupPerform
    rw [hu]
    dsimp only
    rw [if_pos (le_of_eq hfull.symm)]
  exact ⟨heq, fun s' h => by rw [heq] at h; cases h⟩

theorem pickup_full_inventory_witness :
    pickupPerform
        { mapItems := [{ pos := (5, 5), name := "healing potion" }],
          invItems := [{ pos := (0, 0), name := "dagger" }],
          capacity := 1, actorPos := (5, 5), log := [] }
      = Except.error "Your inventory is full."
    ∧ ∀ s', pickupPerform
        { mapItems := [{ pos := (5, 5), name := "healing potion" }],
          invItems := [{ pos := (0, 0), name := "dagger" }],
          capacity := 1, actorPos := (5, 5), log := [] }
      ≠ Except.ok s' :=
  pickup_full_inventory _ { pos := (5, 5), name := "healing potion" }
    (by decide) (by decide) (by decide)

/-- `GameWorld.generate_floor` (`game_map.py`), abstracted over the two
generators' outputs (their internal randomness is irrelevant here): the
floor counter is incremented; if the new floor is >= 3 a CellularAutomata
map is generated and assigned to `engine.game_map`, and then, with no
condition, a fresh BasicRectangular map is generated and assigned to
`engine.game_map`.  Returns the new floor, the final installed map, and the
ordered list of maps assigned to `engine.game_map` during the call. -/
def generateFloor {M : Type} (currentFloor : ℤ) (caMap rectMap : M) :
    (ℤ × M) × List M :=
  let floor := currentFloor + 1
  let caAssigns : List M := if 3 ≤ floor then [caMap] else []
  ((floor, rectMap), caAssigns ++ [rectMap])

/-- C10: whatever the floor number, the map installed as the engine's active
game map by `generate_floor` is the rectangular-rooms one; on floors >= 3 the
cellular-automata map is assigned first and then unconditionally overwritten
by the rectangular map, so the cellular-automata strategy never determines
the final layout. -/
theorem rectangular_map_always_installed {M : Type} (currentFloor : ℤ) (caMap rectMap : M) :
    (generateFloor currentFloor caMap rectMap).1 = (currentFloor + 1, rectMap)
    ∧ (generateFloor currentFloor caMap rectMap).2.getLast? = some rectMap
    ∧ (3 ≤ currentFloor + 1 →
        (generateFloor currentFloor caMap rectMap).2 = [caMap, rectMap])
    ∧ (currentFloor + 1 < 3 →
        (generateFloor currentFloor caMap rectMap).2 = [rectMap]) := by
  refine ⟨rfl, ?_, ?_, ?_⟩
  · unfold generateFloor
    by_cases h : 3 ≤ currentFloor + 1 <;> simp [h]
  · intro h
    unfold generateFloor
    simp [h]
  · intro h
    unfold generateFloor
    simp [not_le.mpr h]

theorem rectangular_map_always_installed_witness :
    (generateFloor (3 : ℤ) (0 : ℕ) 1).1 = (4, 1)
    ∧ (generateFloor (3 : ℤ) (0 : ℕ) 1).2.getLast? = some 1
    ∧ (generateFloor (3 : ℤ) (0 : ℕ) 1).2 = [0, 1] :=
  ⟨(rectangular_map_always_installed 3 0 1).1,
   (rectangular_map_always_installed 3 0 1).2.1,
   (rectangular_map_always_installed 3 0 1).2.2.1 (by decide)⟩

/-- A rectangular room (`generation.py` `Rectangle`): stores the corners, with
`x2 = x + width` and `y2 = y + height` as in the constructor. -/
structure Rectangle where
  x1 : ℤ
  y1 : ℤ
  x2 : ℤ
  y2 : ℤ
  deriving DecidableEq, Repr

/-- `Rectangle.center`: `int((x1+x2)/2), int((y1+y2)/2)` — Python `int(...)`
truncates toward zero, i.e. `Int.tdiv`. -/
def Rectangle.center (r : Rectangle) : ℤ × ℤ :=
  (Int.tdiv (r.x1 + r.x2) 2, Int.tdiv (r.y1 + r.y2) 2)

/-- Membership in `Rectangle.inner`, the carved area
`slice(x1+1, x2) × slice(y1+1, y2)`: `x1+1 ≤ x ≤ x2-1`, `y1+1 ≤ y ≤ y2-1`. -/
def Rectangle.innerContains (r : Rectangle) (p : ℤ × ℤ) : Prop :=
  r.x1 + 1 ≤ p.1 ∧ p.1 ≤ r.x2 - 1 ∧ r.y1 + 1 ≤ p.2 ∧ p.2 ≤ r.y2 - 1

instance (r : Rectangle) (p : ℤ × ℤ) : Decidable (r.innerContains p) := by
  unfold Rectangle.innerContains
  infer_instance

/-- `Rectangle.intersects`: overlap test between two rooms. -/
def Rectangle.intersects (r o : Rectangle) : Prop :=
  r.x1 ≤ o.x2 ∧ r.x2 ≥ o.x1 ∧ r.y1 ≤ o.y2 ∧ r.y2 ≥ o.y1

instance (r o : Rectangle) : Decidable (r.intersects o) := by
  unfold Rectangle.intersects
  infer_instance

/-- `x` lies between `a` and `b` inclusive (in either direction). -/
def between (a b x : ℤ) : Prop := min a b ≤ x ∧ x ≤ max a b

instance (a b x : ℤ) : Decidable (between a b x) := by
  unfold between
  infer_instance

/-- Membership in the L-shaped tunnel of `BasicRectangular.__tunnel_between`
from `s` to `e`: with `hFirst` (the `random.random() < 0.5` branch) the corner
is `(e.1, s.2)` (horizontal then vertical), otherwise `(s.1, e.2)` (vertical
then horizontal).  The source rasterizes the two segments with
`tcod.los.bresenham`, which on an axis-aligned segment yields exactly the
integer points between its endpoints inclusive. -/
def onTunnel (s e : ℤ × ℤ) (hFirst : Bool) (p : ℤ × ℤ) : Prop :=
  if hFirst then
    (p.2 = s.2 ∧ between s.1 e.1 p.1) ∨ (p.1 = e.1 ∧ between s.2 e.2 p.2)
  else
    (p.1 = s.1 ∧ between s.2 e.2 p.2) ∨ (p.2 = e.2 ∧ between s.1 e.1 p.1)

instance (s e : ℤ × ℤ) (hFirst : Bool) (p : ℤ × ℤ) : Decidable (onTunnel s e hFirst p) := by
  unfold onTunnel
  split <;> infer_instance

/-- State built up by `BasicRectangular.generate_map`: tile walkability
(initially all `WALL`, i.e. `false`; `FLOOR` and the downstairs tile are
walkable — `tile_types.DOWN_STAIRS` is referenced by the source but not
defined under `src/`; modelled from the spec: the descent point is a distinct
"downstairs" tile the player must stand on, hence walkable), the accepted
rooms (most recent first, so the source's `rooms[-1]` is the head), the
player placement, `center_of_last_room`, and `downstairs_location`. -/
structure GenState where
  walk : ℤ × ℤ → Bool
  rooms : List Rectangle
  playerPos : Option (ℤ × ℤ)
  centerLast : ℤ × ℤ
  downstairs : ℤ × ℤ

/-- One iteration of the `for r in range(self.max_rooms)` loop of
`BasicRectangular.generate_map`, for a proposed room (with the tunnel
orientation draw it would use): if it intersects an accepted room it is
skipped; otherwise its inner area is carved to floor; the first accepted room
places the player at its center, later rooms are tunneled to the previously
accepted room's center and update `center_of_last_room`; finally the tile at
`center_of_last_room` is overwritten with the (walkable) downstairs tile and
`downstairs_location` is set (for the first room this writes at the initial
`(0, 0)` value, as in the source). -/
def genStep (st : GenState) (pr : Rectangle × Bool) : GenState :=
  let r := pr.1
  if st.rooms.any (fun o => decide (r.intersects o)) then st
  else
    match st.rooms with
    | [] =>
      let walkCarved : ℤ × ℤ → Bool := fun p => st.walk p || decide (r.innerContains p)
      let walkFinal : ℤ × ℤ → Bool := fun p => walkCarved p || decide (p = st.centerLast)
      { walk := walkFinal, rooms := [r], playerPos := some r.center,
        centerLast := st.centerLast, downstairs := st.centerLast }
    | prev :: rest =>
      let walkCarved : ℤ × ℤ → Bool := fun p => st.walk p || decide (r.innerContains p)
      let walkTunneled : ℤ × ℤ → Bool :=
        fun p => walkCarved p || decide (onTunnel prev.center r.center pr.2 p)
      let walkFinal : ℤ × ℤ → Bool := fun p => walkTunneled p || decide (p = r.center)
      { walk := walkFinal, rooms := r :: prev :: rest, playerPos := st.playerPos,
        centerLast := r.center, downstairs := r.center }

/-- The initial state: all tiles `WALL`, no rooms, no player,
`center_of_last_room = (0, 0)`. -/
def initGen : GenState :=
  { walk := fun _ => false, rooms := [], playerPos := none,
    centerLast := (0, 0), downstairs := (0, 0) }

/-- `BasicRectangular.generate_map`, with the stream of proposed rooms (the
random dimension/position draws) and per-room tunnel-orientation draws passed
in explicitly. -/
def generateMap (props : List (Rectangle × Bool)) : GenState :=
  props.foldl genStep initGen

/-- Orthogonal grid adjacency. -/
def Adj (p q : ℤ × ℤ) : Prop :=
  (p.1 = q.1 ∧ (p.2 = q.2 + 1 ∨ p.2 + 1 = q.2))
  ∨ (p.2 = q.2 ∧ (p.1 = q.1 + 1 ∨ p.1 + 1 = q.1))

/-- One step between adjacent walkable tiles. -/
def WalkStep (w : ℤ × ℤ → Bool) (p q : ℤ × ℤ) : Prop :=
  Adj p q ∧ w p = true ∧ w q = true

/-- Reachability along walkable tiles. -/
def Reach (w : ℤ × ℤ → Bool) : ℤ × ℤ → ℤ × ℤ → Prop :=
  Relation.ReflTransGen (WalkStep w)

theorem Reach.mono {w w' : ℤ × ℤ → Bool} (hmono : ∀ p, w p = true → w' p = true)
    {p q : ℤ × ℤ} (h : Reach w p q) : Reach w' p q := by
  induction h with
  | refl => exact Relation.ReflTransGen.refl
  | tail _ hstep ih =>
    exact ih.tail ⟨hstep.1, hmono _ hstep.2.1, hmono _ hstep.2.2⟩

theorem walkStep_symm {w : ℤ × ℤ → Bool} {p q : ℤ × ℤ} (h : WalkStep w p q) :
    WalkStep w q p := by
  obtain ⟨hadj, hp, hq⟩ := h
  refine ⟨?_, hq, hp⟩
  rcases hadj with ⟨h1, h2⟩ | ⟨h1, h2⟩
  · exact Or.inl ⟨h1.symm, h2.symm.imp Eq.symm Eq.symm⟩
  · exact Or.inr ⟨h1.symm, h2.symm.imp Eq.symm Eq.symm⟩

theorem reach_symm {w : ℤ × ℤ → Bool} {p q : ℤ × ℤ} (h : Reach w p q) : Reach w q p :=
  Relation.ReflTransGen.symmetric (fun _ _ hs => walkStep_symm hs) h

theorem reach_right (w : ℤ × ℤ → Bool) (y a : ℤ) :
    ∀ n : ℕ, (∀ x : ℤ, a ≤ x → x ≤ a + n → w (x, y) = true) →
      Reach w (a, y) (a + (n : ℤ), y) := by
  intro n
  induction n with
  | zero =>
    intro _
    simpa using Relation.ReflTransGen.refl
  | succ n ih =>
    intro h
    have h1 : Reach w (a, y) (a + (n : ℤ), y) :=
      ih (fun x hx1 hx2 => h x hx1 (by push_cast; omega))
    refine h1.tail ⟨?_, ?_, ?_⟩
    · exact Or.inr ⟨rfl, Or.inr (by push_cast; ring)⟩
    · exact h _ (by omega) (by push_cast; omega)
    · exact h _ (by push_cast; omega) (by push_cast; omega)

theorem reach_horizontal (w : ℤ × ℤ → Bool) (y a b : ℤ)
    (h : ∀ x : ℤ, min a b ≤ x → x ≤ max a b → w (x, y) = true) :
    Reach w (a, y) (b, y) := by
  rcases le_total a b with hab | hab
  · have hn : b = a + ((b - a).toNat : ℤ) := by omega
    rw [hn]
    exact reach_right w y a (b - a).toNat
      (fun x hx1 hx2 => h x (by omega) (by omega))
  · have hn : a = b + ((a - b).toNat : ℤ) := by omega
    refine reach_symm ?_
    rw [hn]
    exact reach_right w y b (a - b).toNat
      (fun x hx1 hx2 => h x (by omega) (by omega))

theorem reach_up (w : ℤ × ℤ → Bool) (x a : ℤ) :
    ∀ n : ℕ, (∀ y : ℤ, a ≤ y → y ≤ a + n → w (x, y) = true) →
      Reach w (x, a) (x, a + (n : ℤ)) := by
  intro n
  induction n with
  | zero =>
    intro _
    simpa using Relation.ReflTransGen.refl
  | succ n ih =>
    intro h
    have h1 : Reach w (x, a) (x, a + (n : ℤ)) :=
      ih (fun y hy1 hy2 => h y hy1 (by push_cast; omega))
    refine h1.tail ⟨?_, ?_, ?_⟩
    · exact Or.inl ⟨rfl, Or.inr (by push_cast; ring)⟩
    · exact h _ (by omega) (by push_cast; omega)
    · exact h _ (by push_cast; omega) (by push_cast; omega)

theorem reach_vertical (w : ℤ × ℤ → Bool) (x a b : ℤ)
    (h : ∀ y : ℤ, min a b ≤ y → y ≤ max a b → w (x, y) = true) :
    Reach w (x, a) (x, b) := by
  rcases le_total a b with hab | hab
  · have hn : b = a + ((b - a).toNat : ℤ) := by omega
    rw [hn]
    exact reach_up w x a (b - a).toNat (fun y hy1 hy2 => h y (by omega) (by omega))
  · have hn : a = b + ((a - b).toNat : ℤ) := by omega
    refine reach_symm ?_
    rw [hn]
    exact reach_up w x b (a - b).toNat (fun y hy1 hy2 => h y (by omega) (by omega))

/-- Any two tiles of a room's carved inner area are connected through it. -/
theorem reach_inner (r : Rectangle) (w : ℤ × ℤ → Bool)
    (hw : ∀ p, r.innerContains p → w p = true)
    (p q : ℤ × ℤ) (hp : r.innerContains p) (hq : r.innerContains q) :
    Reach w p q := by
  obtain ⟨hpx1, hpx2, hpy1, hpy2⟩ := hp
  obtain ⟨hqx1, hqx2, hqy1, hqy2⟩ := hq
  have h1 : Reach w (p.1, p.2) (q.1, p.2) := by
    apply reach_horizontal
    intro x hx1 hx2
    exact hw (x, p.2) ⟨by simp at hx1 ⊢; omega, by simp at hx2 ⊢; omega, hpy1, hpy2⟩
  have h2 : Reach w (q.1, p.2) (q.1, q.2) := by
    apply reach_vertical
    intro y hy1 hy2
    exact hw (q.1, y) ⟨hqx1, hqx2, by simp at hy1 ⊢; omega, by simp at hy2 ⊢; omega⟩
  exact Relation.ReflTransGen.trans h1 h2

/-- The carved L-shaped tunnel connects its two endpoints. -/
theorem reach_tunnel (w : ℤ × ℤ → Bool) (s e : ℤ × ℤ) (hf : Bool)
    (hw : ∀ p, onTunnel s e hf p → w p = true) :
    Reach w s e := by
  cases hf with
  | true =>
    have h1 : Reach w (s.1, s.2) (e.1, s.2) := by
      apply reach_horizontal
      intro x hx1 hx2
      exact hw (x, s.2) (by unfold onTunnel between; simp at hx1 hx2 ⊢; omega)
    have h2 : Reach w (e.1, s.2) (e.1, e.2) := by
      apply reach_vertical
      intro y hy1 hy2
      exact hw (e.1, y) (by unfold onTunnel between; simp at hy1 hy2 ⊢; omega)
    exact Relation.ReflTransGen.trans h1 h2
  | false =>
    have h1 : Reach w (s.1, s.2) (s.1, e.2) := by
      apply reach_vertical
      intro y hy1 hy2
      exact hw (s.1, y) (by unfold onTunnel between; simp at hy1 hy2 ⊢; omega)
    have h2 : Reach w (s.1, e.2) (e.1, e.2) := by
      apply reach_horizontal
      intro x hx1 hx2
      exact hw (x, e.2) (by unfold onTunnel between; simp at hx1 hx2 ⊢; omega)
    exact Relation.ReflTransGen.trans h1 h2

/-- Dimensions every room proposed by the generator has: nonnegative corner
(`x, y = randint(0, dim - size - 1) ≥ 0`) and width/height ≥ 2
(`randint(room_min_size, room_max_size)` with the configured
`ROOM_MIN_SIZE = 6`). -/
def goodRoom (r : Rectangle) : Prop :=
  0 ≤ r.x1 ∧ 0 ≤ r.y1 ∧ r.x1 + 2 ≤ r.x2 ∧ r.y1 + 2 ≤ r.y2

instance (r : Rectangle) : Decidable (goodRoom r) := by
  unfold goodRoom
  infer_instance

/-- The center of a room of width and height ≥ 2 lies in its inner area. -/
theorem center_mem_inner (r : Rectangle) (hg : goodRoom r) :
    r.innerContains r.center := by
  obtain ⟨hx0, hy0, hw, hh⟩ := hg
  unfold Rectangle.center Rectangle.innerContains
  have hx : Int.tdiv (r.x1 + r.x2) 2 = (r.x1 + r.x2) / 2 :=
    Int.tdiv_eq_ediv (by omega) (by omega)
  have hy : Int.tdiv (r.y1 + r.y2) 2 = (r.y1 + r.y2) / 2 :=
    Int.tdiv_eq_ediv (by omega) (by omega)
  rw [hx, hy]
  constructor
  · show r.x1 + 1 ≤ (r.x1 + r.x2) / 2
    omega
  refine ⟨?_, ?_, ?_⟩
  · show (r.x1 + r.x2) / 2 ≤ r.x2 - 1
    omega
  · show r.y1 + 1 ≤ (r.y1 + r.y2) / 2
    omega
  · show (r.y1 + r.y2) / 2 ≤ r.y2 - 1
    omega

/-- Invariant of the room-placement loop: either nothing is accepted yet, or
the player stands at the center of the first accepted room (the last element
of the accepted list), that center is walkable, every accepted room has the
generator's dimensions, and every tile of every accepted room's inner area is
carved and reachable from the player's start. -/
def GenInv (st : GenState) : Prop :=
  (st.rooms = [] ∧ st.playerPos = none)
  ∨ (∃ r₀ : Rectangle,
      st.rooms.getLast? = some r₀
      ∧ st.playerPos = some r₀.center
      ∧ st.walk r₀.center = true
      ∧ (∀ r ∈ st.rooms, goodRoom r)
      ∧ ∀ r ∈ st.rooms, ∀ p, r.innerContains p →
          st.walk p = true ∧ Reach st.walk r₀.center p)

theorem genInv_init : GenInv initGen := Or.inl ⟨rfl, rfl⟩

theorem genStep_inv (st : GenState) (pr : Rectangle × Bool) (hg : goodRoom pr.1)
    (hinv : GenInv st) : GenInv (genStep st pr) := by
  obtain ⟨r, orient⟩ := pr
  by_cases hA : st.rooms.any (fun o => decide (r.intersects o)) = true
  · have heq : genStep st (r, orient) = st := by
      unfold genStep
      rw [if_pos hA]
    rw [heq]
    exact hinv
  · rcases hrooms : st.rooms with _ | ⟨prev, rest⟩
    · -- first accepted room
      have heq : genStep st (r, orient)
          = { walk := fun p =>
                (st.walk p || decide (r.innerContains p)) || decide (p = st.centerLast),
              rooms := [r], playerPos := some r.center,
              centerLast := st.centerLast, downstairs := st.centerLast } := by
        unfold genStep
        rw [if_neg hA, hrooms]
      rw [heq]
      refine Or.inr ⟨r, rfl, rfl, ?_, ?_, ?_⟩
      · have hc := center_mem_inner r hg
        simp [hc]
      · intro r' hr'
        have hrr : r' = r := List.mem_singleton.mp hr'
        subst hrr
        exact hg
      · intro r' hr' p hp
        have hrr : r' = r := List.mem_singleton.mp hr'
        subst hrr
        have hwalk : ∀ q, r'.innerContains q →
            ((st.walk q || decide (r'.innerContains q)) || decide (q = st.centerLast)) = true := by
          intro q hq
          simp [hq]
        exact ⟨hwalk p hp, reach_inner r' _ hwalk r'.center p (center_mem_inner r' hg) hp⟩
    · -- a later room, tunneled to the previously accepted one
      have heq : genStep st (r, orient)
          = { walk := fun p =>
                ((st.walk p || decide (r.innerContains p))
                  || decide (onTunnel prev.center r.center orient p))
                  || decide (p = r.center),
              rooms := r :: prev :: rest, playerPos := st.playerPos,
              centerLast := r.center, downstairs := r.center } := by
        unfold genStep
        rw [if_neg hA, hrooms]
      rcases hinv with ⟨hempty, _⟩ | ⟨r₀, hlast, hplayer, hstart, hgood, hreach⟩
      · rw [hrooms] at hempty
        cases hempty
      rw [heq]
      set w' : ℤ × ℤ → Bool := fun p =>
          ((st.walk p || decide (r.innerContains p))
            || decide (onTunnel prev.center r.center orient p))
            || decide (p = r.center) with hw'
      have hmono : ∀ p, st.walk p = true → w' p = true := by
        intro p hp
        simp [hw', hp]
      have hwInner : ∀ p, r.innerContains p → w' p = true := by
        intro p hp
        simp [hw', hp]
      have hwTunnel : ∀ p, onTunnel prev.center r.center orient p → w' p = true := by
        intro p hp
        simp [hw', hp]
      have hprevMem : prev ∈ st.rooms := by
        rw [hrooms]
        exact List.mem_cons_self prev rest
      have hprevGood : goodRoom prev := hgood prev hprevMem
      have hprevCenter : Reach st.walk r₀.center prev.center :=
        (hreach prev hprevMem prev.center (center_mem_inner prev hprevGood)).2
      have hreachNewCenter : Reach w' r₀.center r.center := by
        refine Relation.ReflTransGen.trans (hprevCenter.mono hmono) ?_
        exact reach_tunnel w' prev.center r.center orient hwTunnel
      refine Or.inr ⟨r₀, ?_, hplayer, hmono _ hstart, ?_, ?_⟩
      · show (r :: prev :: rest).getLast? = some r₀
        have hstep : (r :: prev :: rest).getLast? = (prev :: rest).getLast? := rfl
        rw [hstep, ← hrooms]
        exact hlast
      · intro r' hr'
        rcases List.mem_cons.mp hr' with rfl | hr'
        · exact hg
        · exact hgood r' (by rw [hrooms]; exact hr')
      · intro r' hr' p hp
        rcases List.mem_cons.mp hr' with rfl | hr'
        · refine ⟨hwInner p hp, ?_⟩
          exact Relation.ReflTransGen.trans hreachNewCenter
            (reach_inner r' w' hwInner r'.center p (center_mem_inner r' hg) hp)
        · have horig := hreach r' (by rw [hrooms]; exact hr') p hp
          exact ⟨hmono p horig.1, horig.2.mono hmono⟩

theorem generateMap_inv_aux (props : List (Rectangle × Bool)) :
    ∀ st : GenState, GenInv st → (∀ pr ∈ props, goodRoom pr.1) →
      GenInv (props.foldl genStep st) := by
  induction props with
  | nil =>
    intro st hinv _
    exact hinv
  | cons pr rest ih =>
    intro st hinv hgood
    exact ih (genStep st pr) (genStep_inv st pr (hgood pr (List.mem_cons_self pr rest)) hinv)
      (fun q hq => hgood q (List.mem_cons_of_mem pr hq))

/-- C7: in every map produced by the rectangular-rooms generator from
generator-shaped proposals (nonnegative position, width and height ≥ 2 —
the source draws sizes from `randint(ROOM_MIN_SIZE=6, ROOM_MAX_SIZE=10)` and
positions from `randint(0, dim - size - 1)`), every accepted room's entire
carved inner area is walkable and reachable from the player's starting
position, which is the center of the first accepted room (the last element
of the most-recent-first accepted list), via the chain of L-shaped corridors
carved between consecutive accepted rooms. -/
theorem rectangular_generator_connectivity
    (props : List (Rectangle × Bool)) (hgood : ∀ pr ∈ props, goodRoom pr.1)
    (r : Rectangle) (hr : r ∈ (generateMap props).rooms) :
    ∃ r₀ : Rectangle,
      (generateMap props).rooms.getLast? = some r₀
      ∧ (generateMap props).playerPos = some r₀.center
      ∧ (generateMap props).walk r₀.center = true
      ∧ ∀ p, r.innerContains p →
          (generateMap props).walk p = true
          ∧ Reach (generateMap props).walk r₀.center p := by
  have hinv : GenInv (generateMap props) :=
    generateMap_inv_aux props initGen genInv_init hgood
  rcases hinv with ⟨hempty, _⟩ | ⟨r₀, hlast, hplayer, hstart, _, hreach⟩
  · rw [hempty] at hr
    cases hr
  · exact ⟨r₀, hlast, hplayer, hstart, fun p hp => hreach r hr p hp⟩

/-- Two non-overlapping generator-shaped rooms used to exercise C7. -/
def demoProps : List (Rectangle × Bool) :=
  [({ x1 := 0, y1 := 0, x2 := 4, y2 := 4 }, true),
   ({ x1 := 6, y1 := 0, x2 := 10, y2 := 4 }, true)]

theorem rectangular_generator_connectivity_witness :
    ∃ r₀ : Rectangle,
      (generateMap demoProps).rooms.getLast? = some r₀
      ∧ (generateMap demoProps).playerPos = some r₀.center
      ∧ (generateMap demoProps).walk r₀.center = true
      ∧ ∀ p, Rectangle.innerContains { x1 := 6, y1 := 0, x2 := 10, y2 := 4 } p →
          (generateMap demoProps).walk p = true
          ∧ Reach (generateMap demoProps).walk r₀.center p :=
  rectangular_generator_connectivity demoProps (by decide)
    { x1 := 6, y1 := 0, x2 := 10, y2 := 4 } (by decide)
